import Mathlib

/-!
# Verification of the rhino-editor `TipTapEditorBase` integration layer

This file gives a shallow embedding, in Lean 4, of the self-contained logic of
`src/exports/elements/tip-tap-editor-base.ts`: serialization of the editor
content into the bound form input, the editor rebuild lifecycle triggered by
the `extensions` / `starterKitOptions` setters, the attachment-intake pipeline
(`handleFiles`, `handleDropFile`), and the legacy-HTML normalization pass
(`normalizeDOM`).

External collaborators (the wrapped TipTap engine, the DOM, `URL`,
`JSON.parse`/`JSON.stringify`) are modelled abstractly:

* a live `Editor` instance is a record carrying the strings its `getHTML()`
  and `JSON.stringify(getJSON())` calls would produce, plus identity
  information (instance id, container-node id) for the lifecycle claims;
* DOM nodes carry a numeric identity; `document.createElement` is modelled by
  a fresh-id allocator threaded through the host state;
* editor construction is fallible: the two unguarded parse sites of the
  rebuild path (the `JSON.parse` of `normalizeDOM` and of `__defaultOptions`)
  are modelled faithfully, so a rebuild returns the resulting host state
  together with whether it threw;
* the parsed `data-trix-attributes` JSON payload is modelled by an inductive
  type that distinguishes a payload `JSON.parse` would reject (`malformed`)
  from a parsed object with an optional `caption` field; a thrown exception is
  an `Except.error`;
* event dispatch is modelled by recording the dispatched notifications in a
  trace, with listener cancellation (`event.preventDefault()` by a listener)
  supplied as a boolean-valued parameter.

Every definition is translated from the TypeScript source; the theorems at the
end of the file settle the individual claims about the spec.
-/

namespace RhinoEditor

/-! ## Serialization: `serialize`, `updateInputElementValue`, serializer-mode
comparisons (`tip-tap-editor-base.ts` lines 275-300, 489-504, 560-569) -/

namespace Serialization

/-- JS `String.prototype.toLowerCase()`, modelled over the string's characters
(the serializer attribute values compared here are ASCII). -/
def jsToLowerCase (s : String) : String :=
  ⟨s.data.map Char.toLower⟩

/-- The wrapped TipTap instance, abstracted to the two strings the host can
extract from it: `JSON.stringify(this.editor.getJSON())` and
`this.editor.getHTML()`. -/
structure Editor where
  jsonDoc : String
  htmlDoc : String
  deriving DecidableEq, Repr

/-- The bound `<input>` element (`document.getElementById(this.input)`),
abstracted to its `value`. -/
structure InputEl where
  value : String
  deriving DecidableEq, Repr

/-- The slice of `TipTapEditorBase` state that `serialize` /
`updateInputElementValue` read: the nullable `editor`, the `serializer`
attribute string, the reflected `readonly` flag, and the resolved bound input
(`none` when `this.input` is unset or no element carries that id). -/
structure Host where
  editor : Option Editor
  serializer : String
  readonly : Bool
  inputElement : Option InputEl
  deriving DecidableEq, Repr

/-- `serialize()` (lines 284-291):
`if (this.editor == null) return "";`
`if (this.serializer?.toLowerCase() === "json") return JSON.stringify(this.editor.getJSON());`
`return this.editor.getHTML();` -/
def serialize (h : Host) : String :=
  match h.editor with
  | none => ""
  | some e => if jsToLowerCase h.serializer == "json" then e.jsonDoc else e.htmlDoc

/-- `serialize` as a state transformer, making explicit that the call reads the
host and returns a string without touching any host state. -/
def serializeSt (h : Host) : String × Host :=
  (serialize h, h)

/-- `updateInputElementValue()` (lines 275-279):
`if (this.inputElement != null && this.editor != null && !this.readonly) {`
`  this.inputElement.value = this.serialize(); }` -/
def updateInputElementValue (h : Host) : Host :=
  if h.inputElement.isSome && h.editor.isSome && !h.readonly then
    { h with inputElement := some ⟨serialize h⟩ }
  else
    h

/-- The guard of `__setupEditor` (lines 561-564) deciding whether
`normalizeDOM` runs: `if (!this.serializer || this.serializer === "html")`.
JS falsiness of a string means the empty string here. -/
def setupRunsNormalizeDOM (serializer : String) : Bool :=
  serializer == "" || serializer == "html"

/-- The guard of `__defaultOptions` (lines 490-494) deciding whether the bound
input's stored value is parsed as JSON for the initial content:
`if (content && this.serializer?.toLowerCase() === "json")`. -/
def contentParsedAsJson (content : String) (serializer : String) : Bool :=
  content != "" && jsToLowerCase serializer == "json"

end Serialization

/-! ## DOM normalization: `normalizeDOM`
(`tip-tap-editor-base.ts` lines 430-472) -/

namespace Normalize

/-- Whether `pat` occurs at the start of `s` (character lists). -/
def leadsWith : List Char → List Char → Bool
  | [], _ => true
  | _ :: _, [] => false
  | p :: ps, c :: cs => p == c && leadsWith ps cs

/-- Whether `pat` occurs anywhere in `s` (character lists). -/
def hasSub (pat : List Char) : List Char → Bool
  | [] => leadsWith pat []
  | c :: cs => leadsWith pat (c :: cs) || hasSub pat cs

/-- JS `String.prototype.includes`, over the strings' characters. -/
def jsIncludes (s pat : String) : Bool :=
  hasSub pat.data s.data

/-- The attachment-name separator glyph appended by `normalizeDOM`. -/
def glyph : String := " · "

/-- The `data-trix-attributes` JSON payload of a figure, as `JSON.parse` sees
it: either a string `JSON.parse` rejects by throwing, or a parsed object whose
destructured `caption` field is a string or absent. -/
inductive TrixPayload where
  | malformed
  | parsed (caption : Option String)
  deriving DecidableEq, Repr

/-- A `<figure>` element of the parsed stored-HTML document, abstracted to
what `normalizeDOM` queries: whether it matches `figure[data-trix-attachment]`,
the text of its `<figcaption>` child (`none` = lacking one), its
`data-trix-attributes` attribute (`none` = absent — which also covers the
empty attribute, since `if (!attrs) return;` skips both), the `textContent`
of its descendant `.attachment__name` elements, whether it matches
`div > figure:first-child`, and whether its parent already carries the
`attachment-gallery` class. -/
structure Figure where
  trixAttachment : Bool
  figcaption : Option String
  trixAttributes : Option TrixPayload
  nameTexts : List String
  firstChildOfDiv : Bool
  parentGallery : Bool
  deriving DecidableEq, Repr

/-- The document `DOMParser.parseFromString(inputElement.value, "text/html")`
yields (HTML parsing itself never throws), abstracted to its figures. -/
structure NDoc where
  figures : List Figure
  deriving DecidableEq, Repr

/-- The bound input element as `normalizeDOM` sees it: its (nullable) value,
already in parsed-document form. -/
structure NInput where
  value : Option NDoc
  deriving DecidableEq, Repr

/-- `doc.querySelectorAll("div > figure:first-child").forEach(el =>
el.parentElement?.classList.add("attachment-gallery"))` (lines 442-444),
per figure. -/
def galleryStep (f : Figure) : Figure :=
  if f.firstChildOfDiv then { f with parentGallery := true } else f

/-- A figure that `filtersWithoutChildren` retains (caption-less attachment
figure) whose serialized attribute payload `JSON.parse` rejects — the one
spot where `normalizeDOM` can throw. -/
def malformedCaptionless (f : Figure) : Prop :=
  f.trixAttachment = true ∧ f.figcaption = none ∧
    f.trixAttributes = some TrixPayload.malformed

instance : DecidablePred malformedCaptionless := fun f => by
  unfold malformedCaptionless
  infer_instance

/-- The body of the `filtersWithoutChildren.forEach` (lines 446-459) for one
figure, with the `figures.filter(figure => figure.querySelector("figcaption")
== null)` condition folded in (the preceding gallery step touches only parent
classes, so filtering before or after it is equivalent):
`const attrs = figure.getAttribute("data-trix-attributes"); if (!attrs)
return;` then `const { caption } = JSON.parse(attrs);` — an unguarded parse,
`Except.error` models the thrown exception — and `if (caption)` (JS
truthiness: absent or empty captions are skipped) inserts
`<figcaption class="attachment__caption">caption</figcaption>`. -/
def processFigure (f : Figure) : Except Unit Figure :=
  if f.trixAttachment && f.figcaption.isNone then
    match f.trixAttributes with
    | none => Except.ok f
    | some TrixPayload.malformed => Except.error ()
    | some (TrixPayload.parsed none) => Except.ok f
    | some (TrixPayload.parsed (some c)) =>
      if c != "" then Except.ok { f with figcaption := some c }
      else Except.ok f
  else Except.ok f

/-- The `forEach` over the figures: left to right, aborting the whole
transform when a body throws (the exception propagates out of
`normalizeDOM`, and `inputElement.value` is never written back). -/
def mapFigs : List Figure → Except Unit (List Figure)
  | [] => Except.ok []
  | f :: rest =>
    match processFigure f with
    | Except.error e => Except.error e
    | Except.ok f' =>
      match mapFigs rest with
      | Except.error e => Except.error e
      | Except.ok rest' => Except.ok (f' :: rest')

/-- The per-name-node body of the final `forEach` (lines 461-465):
`if (el.textContent?.includes(" · ") === false) return;`
`el.insertAdjacentText("beforeend", " · ");`
(note the inverted guard: the glyph is appended exactly when it is already
contained). -/
def nameGlyphStep (t : String) : String :=
  if jsIncludes t glyph == false then t else t ++ glyph

/-- `doc.querySelectorAll("figure .attachment__name")` processing, per
figure. -/
def nameStep (f : Figure) : Figure :=
  { f with nameTexts := f.nameTexts.map nameGlyphStep }

/-- The whole transform `normalizeDOM` applies to the parsed document, in
source order: gallery classes, caption synthesis (fallible), name glyphs. -/
def normalizeDoc (d : NDoc) : Except Unit NDoc :=
  match mapFigs (d.figures.map galleryStep) with
  | Except.error e => Except.error e
  | Except.ok figs => Except.ok ⟨figs.map nameStep⟩

/-- `normalizeDOM(inputElement)` (lines 430-472): no-op on a missing input or
missing value (`if (inputElement == null || inputElement.value == null)
return;`); otherwise parse, transform, and write the body back into
`inputElement.value` — unless the transform threw, in which case the value is
left unchanged and the exception reaches the caller (`Except.error`). -/
def normalizeDOM (inputElement : Option NInput) : Except Unit (Option NInput) :=
  match inputElement with
  | none => Except.ok none
  | some ie =>
    match ie.value with
    | none => Except.ok (some ie)
    | some d =>
      match normalizeDoc d with
      | Except.error e => Except.error e
      | Except.ok d' => Except.ok (some ⟨some d'⟩)

end Normalize

/-! ## Lifecycle: `rebuildEditor`, `__setupEditor` and the `extensions` /
`starterKitOptions` setters (`tip-tap-editor-base.ts` lines 105-153, 239-252,
489-504, 560-569) -/

namespace Lifecycle

/-- A light-DOM element, carrying the numeric identity under which
`document.createElement` allocated it. -/
structure Node where
  id : Nat
  deriving DecidableEq, Repr

/-- A wrapped TipTap `Editor` instance: its own allocation identity and the
identity of the container element it was mounted onto (the `element` passed
to `new Editor(...)` through `__setupEditor`). -/
structure Editor where
  id : Nat
  containerId : Nat
  deriving DecidableEq, Repr

/-- A user-supplied extension (`EditorOptions["extensions"]` entry), opaque to
the host. -/
abbrev Ext := Nat

/-- A `Partial<RhinoEditorStarterKitOptions>` value, opaque to the host. -/
abbrev StarterKitOpts := Nat

/-- The bound input's stored string value, through the three views the rebuild
path takes of it: the document `DOMParser` yields from it (HTML parsing never
throws), whether the string is empty (JS-falsy, for the `content &&` guard of
`__defaultOptions`), and whether `JSON.parse` accepts it. The normalization
write-back replaces the string, updating the parsed-document view; the other
two views are consulted only under a (case-insensitive) `json` serializer,
where the write-back never runs, so keeping them is sound. -/
structure StoredInput where
  parsedHTML : Normalize.NDoc
  isEmpty : Bool
  jsonParses : Bool
  deriving DecidableEq, Repr

/-- The slice of `TipTapEditorBase` state the rebuild lifecycle touches: the
nullable `editor`, the current `[slot="editor"]` child (`this.slottedEditor`),
the `__extensions__` and `__starterKitOptions__` backing fields, the
`serializer` attribute, the resolved bound input, and a fresh-identity
allocator standing for `document.createElement` / `new Editor(...)` producing
objects distinct from all existing ones. -/
structure Host where
  editor : Option Editor
  slottedChild : Option Node
  extensions : List Ext
  starterKitOpts : StarterKitOpts
  serializer : String
  inputElement : Option StoredInput
  nextId : Nat
  deriving DecidableEq, Repr

/-- The `normalizeDOM(this.inputElement)` call of `__setupEditor` (lines
561-564): under a falsy or `"html"` serializer, run the fallible transform of
the Normalize section on the bound input's stored value and write the result
back; its unguarded `JSON.parse` can throw. -/
def setupNormalize (h : Host) : Except Unit Host :=
  if Serialization.setupRunsNormalizeDOM h.serializer then
    match h.inputElement with
    | none => Except.ok h
    | some inp =>
      match Normalize.normalizeDoc inp.parsedHTML with
      | Except.error e => Except.error e
      | Except.ok d' =>
        Except.ok { h with inputElement := some { inp with parsedHTML := d' } }
  else Except.ok h

/-- Whether the `JSON.parse(content)` of `__defaultOptions` (lines 490-494)
throws: non-empty stored content under a case-insensitive `json` serializer
that `JSON.parse` rejects — unguarded, so the failure propagates out of
`new Editor(...)`. -/
def contentParseThrows (h : Host) : Bool :=
  match h.inputElement with
  | none => false
  | some inp =>
    !inp.isEmpty && (Serialization.jsToLowerCase h.serializer == "json")
      && !inp.jsonParses

/-- `__setupEditor(element)` (lines 560-569): the fallible `normalizeDOM`
pass, then `new Editor(this.allOptions(element))`, whose `__defaultOptions`
content parse is fallible too; on success, a fresh instance mounted on
`element`. -/
def __setupEditor (h : Host) (element : Node) : Except Unit (Host × Editor) :=
  match setupNormalize h with
  | Except.error e => Except.error e
  | Except.ok h1 =>
    if contentParseThrows h1 then Except.error ()
    else Except.ok (h1, ⟨h1.nextId, element.id⟩)

/-- Outcome of one rebuild or configuration assignment: the host state
afterwards, and whether the call threw (the exception reaching the
assigner). -/
structure StepResult where
  host : Host
  threw : Bool
  deriving DecidableEq, Repr

/-- `rebuildEditor()` (lines 128-153):
`const cachedEditor = this.slottedEditor;`
`const div = document.createElement("div"); div.setAttribute("slot", "editor");`
`if (cachedEditor) { cachedEditor.replaceWith(div); } else { this.insertAdjacentElement("beforeend", div); }`
`this.editor = this.__setupEditor(div); ...`
Either `replaceWith`/`insertAdjacentElement` branch leaves `div` as the host's
`[slot="editor"]` child before `__setupEditor` runs — so when the latter
throws, `this.editor` keeps its previous value while the slot content was
already replaced, and the exception propagates to the assigner. -/
def rebuildEditor (h : Host) : StepResult :=
  let div : Node := ⟨h.nextId⟩
  let h1 := { h with slottedChild := some div, nextId := h.nextId + 1 }
  match __setupEditor h1 div with
  | Except.error _ => ⟨h1, true⟩
  | Except.ok (h2, editorInst) =>
    ⟨{ h2 with editor := some editorInst, nextId := h2.nextId + 1 }, false⟩

/-- `set extensions(extensions)` (lines 244-248): store the new list in
`__extensions__`, then `this.rebuildEditor()`. -/
def setExtensions (h : Host) (e : List Ext) : StepResult :=
  rebuildEditor { h with extensions := e }

/-- `set starterKitOptions(options)` (lines 118-122): store the new options in
`__starterKitOptions__`, then `this.rebuildEditor()`. -/
def setStarterKitOptions (h : Host) (o : StarterKitOpts) : StepResult :=
  rebuildEditor { h with starterKitOpts := o }

/-- One assignment to a configuration-affecting property. -/
inductive ConfigOp where
  | assignExtensions (e : List Ext)
  | assignStarterKitOpts (o : StarterKitOpts)
  deriving DecidableEq, Repr

/-- Apply one configuration assignment. -/
def applyOp (h : Host) : ConfigOp → StepResult
  | .assignExtensions e => setExtensions h e
  | .assignStarterKitOpts o => setStarterKitOptions h o

/-- Apply a sequence of configuration assignments in order, following the
host state whether or not an assignment threw. -/
def applyOps (h : Host) (ops : List ConfigOp) : Host :=
  ops.foldl (fun acc op => (applyOp acc op).host) h

/-- The wrapped-editor instances reachable from the host: `this.editor` is the
host's only editor reference, so at most one instance is alive per host. -/
def aliveEditors (h : Host) : List Editor :=
  h.editor.toList

/-- Allocator soundness: every object the host currently references was
allocated below `nextId` (true of any host built from fresh allocations). -/
def FreshAlloc (h : Host) : Prop :=
  (∀ e ∈ h.editor, e.id < h.nextId ∧ e.containerId < h.nextId) ∧
  (∀ n ∈ h.slottedChild, n.id < h.nextId)

instance : DecidablePred FreshAlloc := fun h => by
  unfold FreshAlloc
  infer_instance

/-- A stored value `normalizeDOM` accepts: no caption-less attachment figure
carries a payload `JSON.parse` rejects. -/
def normalizeSafeInput : Option StoredInput → Prop
  | none => True
  | some inp => ∀ f ∈ inp.parsedHTML.figures, ¬ Normalize.malformedCaptionless f

instance : DecidablePred normalizeSafeInput := fun o => by
  cases o <;> (unfold normalizeSafeInput; infer_instance)

/-- A parse-safe configuration: neither of `__setupEditor`'s two unguarded
parse sites can throw — the stored value normalizes cleanly whenever the
serializer routes it through `normalizeDOM`, and the content parse of
`__defaultOptions` accepts it. -/
def SetupSafe (h : Host) : Prop :=
  (Serialization.setupRunsNormalizeDOM h.serializer = true →
    normalizeSafeInput h.inputElement) ∧
  contentParseThrows h = false

instance : DecidablePred SetupSafe := fun h => by
  unfold SetupSafe
  infer_instance

/-- A connected host with a live editor whose stored value holds a
caption-less attachment figure with a payload `JSON.parse` rejects: the next
configuration assignment's rebuild throws after replacing the slot content. -/
def staleHost : Host :=
  { editor := some ⟨0, 1⟩
    slottedChild := some ⟨1⟩
    extensions := []
    starterKitOpts := 0
    serializer := "html"
    inputElement := some
      ⟨⟨[⟨true, none, some Normalize.TrixPayload.malformed, [], false, false⟩]⟩,
        false, true⟩
    nextId := 2 }

end Lifecycle

/-! ## Attachment intake: `handleFiles`, `handleDropFile`,
`transformFilesToAttachments` (`tip-tap-editor-base.ts` lines 302-396) -/

namespace Intake

/-- A dropped/pasted `File` object; the numeric id is the object's identity
(distinct `File` objects carry distinct ids). -/
structure File where
  id : Nat
  deriving DecidableEq, Repr

/-- `URL.createObjectURL(file)`, modelled as a deterministic identity-based
allocation of the preview URL. -/
def createObjectURL (f : File) : Nat :=
  f.id

/-- `new AttachmentManager({ src, file }, this.editor.view)`: the attachment
value object wrapping the generated object URL and the file. -/
structure AttachmentManager where
  src : Nat
  file : File
  deriving DecidableEq, Repr

/-- The slice of host state the intake pipeline reads: the nullable `editor`
(only its nullability matters here). -/
structure Host where
  editor : Option Unit
  deriving DecidableEq, Repr

/-- A notification dispatched, or an editor command run, during intake, in
program order: the cancelable `FileAcceptEvent` per input file, the single
combined `chain().focus().setAttachment(attachments).run()` command, and the
`AddAttachmentEvent` per inserted attachment. -/
inductive Action where
  | fileAccept (f : File)
  | insertAttachments (atts : List AttachmentManager)
  | addAttachment (a : AttachmentManager)
  deriving DecidableEq, Repr

/-- Whether an action is the combined attachment-insertion editor command. -/
def Action.isInsertCmd : Action → Bool
  | .insertAttachments _ => true
  | _ => false

/-- `transformFilesToAttachments(files)` (lines 373-396): returns `undefined`
when no editor is live or the collection is missing/empty, else one
`AttachmentManager` per file. (The `if (file == null) return;` inside the
loop is unreachable here: the model's file lists hold actual files, as do the
`allowedFiles` built from `FileAcceptEvent.file` at the call site.) -/
def transformFilesToAttachments (h : Host) (files : Option (List File)) :
    Option (List AttachmentManager) :=
  match h.editor with
  | none => none
  | some _ =>
    match files with
    | none => none
    | some fs =>
      if fs.length = 0 then none
      else some (fs.map fun f => ⟨createObjectURL f, f⟩)

/-- Result of a `handleFiles` call: the dispatch/insert trace produced by its
synchronous body, and whether the returned promise is settled afterwards
(`false` means the executor returned without ever calling `resolve`, leaving
the promise pending forever). -/
structure HandleFilesResult where
  events : List Action
  resolved : Bool
  deriving DecidableEq, Repr

/-- `handleFiles(files)` (lines 302-338). `cancel f` says whether some
listener called `preventDefault()` on the `FileAcceptEvent` carrying `f`.
`if (this.editor == null) return;` exits the `async` function with a resolved
promise; inside the `new Promise` executor, the `files == null` guard is
unreachable for an actual collection, and the two early `return`s before
`resolve()` leave the promise unsettled. -/
def handleFiles (h : Host) (cancel : File → Bool) (files : List File) :
    HandleFilesResult :=
  match h.editor with
  | none => ⟨[], true⟩
  | some _ =>
    let fileAcceptEvents := files.map fun f => (f, cancel f)
    let dispatched := files.map Action.fileAccept
    let allowedFiles := (fileAcceptEvents.filter fun ev => !ev.2).map (·.1)
    match transformFilesToAttachments h (some allowedFiles) with
    | none => ⟨dispatched, false⟩
    | some attachments =>
      if attachments.length ≤ 0 then ⟨dispatched, false⟩
      else
        ⟨dispatched ++ Action.insertAttachments attachments ::
          attachments.map Action.addAttachment, true⟩

/-- The files whose file-accept notification was not canceled. -/
def acceptedFiles (cancel : File → Bool) (files : List File) : List File :=
  files.filter fun f => !cancel f

/-- The attachment an accepted file is converted to. -/
def mkAttachment (f : File) : AttachmentManager :=
  ⟨createObjectURL f, f⟩

/-- All attachments passed to insertion commands in an action list. -/
def collectInserted (l : List Action) : List AttachmentManager :=
  l.foldr
    (fun a acc =>
      match a with
      | .insertAttachments atts => atts ++ acc
      | _ => acc)
    []

/-- All attachments passed to insertion commands in a trace. -/
def insertedAttachments (r : HandleFilesResult) : List AttachmentManager :=
  collectInserted r.events

/-- `event.dataTransfer` of a drop event, abstracted to its `files` list. -/
structure DataTransfer where
  files : List File
  deriving DecidableEq, Repr

/-- A `DragEvent`, abstracted to its nullable `dataTransfer`. -/
structure DragEvent where
  dataTransfer : Option DataTransfer
  deriving DecidableEq, Repr

/-- Outcome of `handleDropFile`: whether `event.preventDefault()` was called,
and the forwarded `handleFiles` result when the intake ran. -/
structure DropResult where
  prevented : Bool
  forwarded : Option HandleFilesResult
  deriving DecidableEq, Repr

/-- `handleDropFile` (lines 340-354): bail out (leaving default handling
untouched) when no editor is live, the event is null, `dataTransfer` is null,
or it carries no files; otherwise `preventDefault()` and forward the file
collection to `handleFiles`. (The `instanceof DragEvent` guard always passes
here: the model's events are drag events.) -/
def handleDropFile (h : Host) (cancel : File → Bool) (event : Option DragEvent) :
    DropResult :=
  match h.editor with
  | none => ⟨false, none⟩
  | some _ =>
    match event with
    | none => ⟨false, none⟩
    | some ev =>
      match ev.dataTransfer with
      | none => ⟨false, none⟩
      | some dt =>
        if dt.files.length > 0 then
          ⟨true, some (handleFiles h cancel dt.files)⟩
        else
          ⟨false, none⟩

end Intake

/-! ## Claim theorems -/

section SerializationTheorems

open Serialization

/-- C2: `serialize()` returns the empty string whenever no editor instance is
live; when an editor is live it returns the JSON-stringified document if the
serializer mode equals "json" under case-insensitive comparison, and otherwise
the editor's HTML string; the call leaves the host (and hence the bound input
and the editor) unchanged. -/
theorem serialize_spec (h : Host) :
    (serializeSt h).2 = h ∧
    (h.editor = none → (serializeSt h).1 = "") ∧
    (∀ e, h.editor = some e →
      (jsToLowerCase h.serializer = "json" → (serializeSt h).1 = e.jsonDoc) ∧
      (jsToLowerCase h.serializer ≠ "json" → (serializeSt h).1 = e.htmlDoc)) := by
  refine ⟨rfl, ?_, ?_⟩
  · intro he
    simp [serializeSt, serialize, he]
  · intro e he
    constructor
    · intro hs
      simp [serializeSt, serialize, he, hs]
    · intro hs
      simp [serializeSt, serialize, he]
      intro heq
      exact absurd heq hs

/-- Witness for C2 at a concrete host: live editor, serializer "JSON"
(case-insensitive match), and at a host with no editor. -/
theorem serialize_spec_witness :
    (serializeSt ⟨some ⟨"{}", "<p></p>"⟩, "JSON", false, none⟩).1 = "{}" ∧
    (serializeSt ⟨none, "html", false, none⟩).1 = "" := by
  constructor
  · exact ((serialize_spec ⟨some ⟨"{}", "<p></p>"⟩, "JSON", false, none⟩).2.2
      ⟨"{}", "<p></p>"⟩ rfl).1 (by decide)
  · exact (serialize_spec ⟨none, "html", false, none⟩).2.1 rfl

/-- C6: `updateInputElementValue()` writes `serialize()` into the bound
input's value exactly when an editor is live, the host is not readonly, and
the bound input resolves; in every other state the host (in particular the
bound input) is left unchanged. -/
theorem updateInputElementValue_spec (h : Host) :
    (h.readonly = true ∨ h.editor = none ∨ h.inputElement = none →
      updateInputElementValue h = h) ∧
    (h.readonly = false → h.editor.isSome → h.inputElement.isSome →
      updateInputElementValue h = { h with inputElement := some ⟨serialize h⟩ }) := by
  constructor
  · intro hcase
    unfold updateInputElementValue
    rcases hcase with hro | hed | hin
    · simp [hro]
    · simp [hed]
    · simp [hin]
  · intro hro hed hin
    unfold updateInputElementValue
    simp [hro, hed, hin]

/-- Witness for C6 at concrete hosts: a readonly host is unchanged, and a
writable host with live editor and resolved input gets the serialized value. -/
theorem updateInputElementValue_spec_witness :
    updateInputElementValue ⟨some ⟨"{}", "<p>a</p>"⟩, "html", true, some ⟨"old"⟩⟩ =
      ⟨some ⟨"{}", "<p>a</p>"⟩, "html", true, some ⟨"old"⟩⟩ ∧
    updateInputElementValue ⟨some ⟨"{}", "<p>a</p>"⟩, "html", false, some ⟨"old"⟩⟩ =
      ⟨some ⟨"{}", "<p>a</p>"⟩, "html", false, some ⟨"<p>a</p>"⟩⟩ := by
  constructor
  · exact (updateInputElementValue_spec
      ⟨some ⟨"{}", "<p>a</p>"⟩, "html", true, some ⟨"old"⟩⟩).1 (Or.inl rfl)
  · have := (updateInputElementValue_spec
      ⟨some ⟨"{}", "<p>a</p>"⟩, "html", false, some ⟨"old"⟩⟩).2 rfl rfl rfl
    rw [this]
    decide

end SerializationTheorems

section NormalizeTheorems

open Normalize

/-- Helper: tagging the gallery class touches only the parent class, never
the fields the caption pass reads. -/
theorem galleryStep_preserves (f : Figure) :
    (galleryStep f).trixAttachment = f.trixAttachment ∧
    (galleryStep f).figcaption = f.figcaption ∧
    (galleryStep f).trixAttributes = f.trixAttributes := by
  unfold galleryStep
  split <;> simp

/-- Helper: the caption pass throws only on a caption-less attachment figure
with a malformed payload. -/
theorem processFigure_ok (f : Figure) (h : ¬ malformedCaptionless f) :
    ∃ f', processFigure f = Except.ok f' := by
  unfold processFigure
  by_cases hc : (f.trixAttachment && f.figcaption.isNone) = true
  · rw [if_pos hc]
    rw [Bool.and_eq_true] at hc
    cases hattr : f.trixAttributes with
    | none => exact ⟨f, rfl⟩
    | some p =>
      cases p with
      | malformed =>
        exact absurd ⟨hc.1, Option.isNone_iff_eq_none.mp hc.2, hattr⟩ h
      | parsed cap =>
        cases cap with
        | none => exact ⟨f, rfl⟩
        | some c =>
          by_cases hcne : (c != "") = true
          · exact ⟨{ f with figcaption := some c }, by simp [hcne, hattr]⟩
          · exact ⟨f, by simp [hcne]⟩
  · rw [if_neg hc]
    exact ⟨f, rfl⟩

/-- Helper: the caption pass succeeds on a whole figure list when every
figure is individually safe. -/
theorem mapFigs_ok (fs : List Figure)
    (h : ∀ f ∈ fs, ∃ f', processFigure f = Except.ok f') :
    ∃ fs', mapFigs fs = Except.ok fs' := by
  induction fs with
  | nil => exact ⟨[], rfl⟩
  | cons f rest ih =>
    obtain ⟨f', hf'⟩ := h f (List.mem_cons_self f rest)
    obtain ⟨rest', hrest'⟩ := ih fun g hg => h g (List.mem_cons_of_mem f hg)
    exact ⟨f' :: rest', by simp [mapFigs, hf', hrest']⟩

/-- Helper: a successful caption pass acts positionally. -/
theorem mapFigs_get (fs fs' : List Figure) (i : Nat) (f : Figure)
    (hm : mapFigs fs = Except.ok fs') (hi : fs.get? i = some f) :
    ∃ f', processFigure f = Except.ok f' ∧ fs'.get? i = some f' := by
  induction fs generalizing fs' i with
  | nil => simp at hi
  | cons g rest ih =>
    rw [mapFigs] at hm
    cases hpg : processFigure g with
    | error e => rw [hpg] at hm; exact absurd hm (by simp)
    | ok g' =>
      rw [hpg] at hm
      cases hrest : mapFigs rest with
      | error e => rw [hrest] at hm; exact absurd hm (by simp)
      | ok rest' =>
        rw [hrest] at hm
        obtain rfl : g' :: rest' = fs' := by injection hm
        cases i with
        | zero =>
          obtain rfl : g = f := by injection hi
          exact ⟨g', hpg, rfl⟩
        | succ j =>
          obtain ⟨f', hf', hget⟩ := ih rest' j hrest (by simpa using hi)
          exact ⟨f', hf', by simpa using hget⟩

/-- Helper: the caption pass synthesizes a figcaption from a truthy caption
field on a caption-less attachment figure. -/
theorem processFigure_galleryStep_caption (f : Figure) (c : String)
    (hatt : f.trixAttachment = true) (hnocap : f.figcaption = none)
    (hattr : f.trixAttributes = some (TrixPayload.parsed (some c)))
    (hc : c ≠ "") :
    processFigure (galleryStep f) =
      Except.ok { galleryStep f with figcaption := some c } := by
  obtain ⟨ta, cap, attrs, names, fcd, pg⟩ := f
  simp only at hatt hnocap hattr
  subst hatt hnocap hattr
  cases fcd <;> simp [galleryStep, processFigure, hc]

/-- Helper: the caption pass leaves a caption-less attachment figure alone
when the parsed payload has no caption field. -/
theorem processFigure_galleryStep_nocaption (f : Figure)
    (hatt : f.trixAttachment = true) (hnocap : f.figcaption = none)
    (hattr : f.trixAttributes = some (TrixPayload.parsed none)) :
    processFigure (galleryStep f) = Except.ok (galleryStep f) := by
  obtain ⟨ta, cap, attrs, names, fcd, pg⟩ := f
  simp only at hatt hnocap hattr
  subst hatt hnocap hattr
  cases fcd <;> simp [galleryStep, processFigure]

/-- Helper: the name-glyph pass never touches a figcaption. -/
theorem nameStep_figcaption (f : Figure) :
    (nameStep f).figcaption = f.figcaption :=
  rfl

/-- Helper: when no caption-less attachment figure carries a malformed
payload, the caption pass over the gallery-tagged figures succeeds. -/
theorem mapFigs_gallery_ok (d : NDoc)
    (hok : ∀ g ∈ d.figures, ¬ malformedCaptionless g) :
    ∃ l2, mapFigs (d.figures.map galleryStep) = Except.ok l2 := by
  apply mapFigs_ok
  intro g hg
  rw [List.mem_map] at hg
  obtain ⟨g0, hg0, rfl⟩ := hg
  apply processFigure_ok
  intro hmal
  obtain ⟨p1, p2, p3⟩ := galleryStep_preserves g0
  refine hok g0 hg0 ⟨?_, ?_, ?_⟩
  · rw [← p1]; exact hmal.1
  · rw [← p2]; exact hmal.2.1
  · rw [← p3]; exact hmal.2.2

/-- C8 (counterexample to the claim as stated): a stored value whose
caption-less attachment figure carries a payload `JSON.parse` rejects makes
`normalizeDOM` raise to its caller — the unguarded `JSON.parse(attrs)` throws
and nothing catches it. -/
theorem normalizeDOM_malformed_payload_raises :
    Normalize.normalizeDOM
      (some ⟨some ⟨[⟨true, none, some TrixPayload.malformed, [], false, false⟩]⟩⟩) =
      Except.error () :=
  rfl

/-- C8 (amended): `normalizeDOM` completes without failure on every input
whose caption-less attachment figures all carry an absent or well-formed
payload — absent attachment data is skipped silently, as are a missing input
element and a missing value; only a malformed serialized payload on a
caption-less attachment figure raises (the parse exception propagates and the
stored value is left unwritten). -/
theorem normalizeDOM_best_effort (d : NDoc) (ie : NInput)
    (hok : ∀ f ∈ d.figures, ¬ malformedCaptionless f) :
    (∃ d', normalizeDOM (some ⟨some d⟩) = Except.ok (some ⟨some d'⟩)) ∧
    normalizeDOM none = Except.ok none ∧
    (ie.value = none → normalizeDOM (some ie) = Except.ok (some ie)) := by
  refine ⟨?_, rfl, ?_⟩
  · obtain ⟨l2, hl2⟩ := mapFigs_gallery_ok d hok
    exact ⟨⟨l2.map nameStep⟩, by simp [normalizeDOM, normalizeDoc, hl2]⟩
  · intro hv
    obtain ⟨v⟩ := ie
    simp only at hv
    subst hv
    rfl

/-- Witness for C8 (amended): a caption-less attachment figure with an
absent payload is skipped without failure, and so is an input with no
value. -/
theorem normalizeDOM_best_effort_witness :
    (∃ d', normalizeDOM (some ⟨some ⟨[⟨true, none, none, [], false, false⟩]⟩⟩) =
      Except.ok (some ⟨some d'⟩)) ∧
    normalizeDOM (some ⟨none⟩) = Except.ok (some ⟨none⟩) := by
  constructor
  · exact (normalizeDOM_best_effort ⟨[⟨true, none, none, [], false, false⟩]⟩
      ⟨none⟩ (by decide)).1
  · exact (normalizeDOM_best_effort ⟨[]⟩ ⟨none⟩ (by decide)).2.2 rfl

/-- C7: for a stored value whose caption-less attachment figure's payload
parses with `caption: "x"`, the normalized value holds a caption element with
text "x" at that figure; a parsed payload with no caption field adds no
caption element, and in both cases normalization completes (given the other
figures are parse-safe too). -/
theorem normalizeDOM_caption_synthesis (d : NDoc) (i : Nat) (f : Figure)
    (hok : ∀ g ∈ d.figures, ¬ malformedCaptionless g)
    (hget : d.figures.get? i = some f)
    (hatt : f.trixAttachment = true) (hnocap : f.figcaption = none) :
    ∃ d', normalizeDOM (some ⟨some d⟩) = Except.ok (some ⟨some d'⟩) ∧
      (f.trixAttributes = some (TrixPayload.parsed (some "x")) →
        ∃ g, d'.figures.get? i = some g ∧ g.figcaption = some "x") ∧
      (f.trixAttributes = some (TrixPayload.parsed none) →
        ∃ g, d'.figures.get? i = some g ∧ g.figcaption = none) := by
  obtain ⟨l2, hl2⟩ := mapFigs_gallery_ok d hok
  have hg1 : (d.figures.map galleryStep).get? i = some (galleryStep f) := by
    rw [List.get?_map, hget]
    rfl
  obtain ⟨f2, hpf2, hl2i⟩ := mapFigs_get _ l2 i (galleryStep f) hl2 hg1
  refine ⟨⟨l2.map nameStep⟩, by simp [normalizeDOM, normalizeDoc, hl2], ?_, ?_⟩
  · intro hattr
    have hpf : processFigure (galleryStep f) =
        Except.ok { galleryStep f with figcaption := some "x" } :=
      processFigure_galleryStep_caption f "x" hatt hnocap hattr (by decide)
    have heq : f2 = { galleryStep f with figcaption := some ("x" : String) } := by
      rw [hpf] at hpf2
      injection hpf2 with h
      exact h.symm
    refine ⟨nameStep f2, ?_, ?_⟩
    · rw [List.get?_map, hl2i]
      rfl
    · rw [nameStep_figcaption, heq]
  · intro hattr
    have hpf : processFigure (galleryStep f) = Except.ok (galleryStep f) :=
      processFigure_galleryStep_nocaption f hatt hnocap hattr
    have heq : f2 = galleryStep f := by
      rw [hpf] at hpf2
      injection hpf2 with h
      exact h.symm
    refine ⟨nameStep f2, ?_, ?_⟩
    · rw [List.get?_map, hl2i]
      rfl
    · rw [nameStep_figcaption, heq, (galleryStep_preserves f).2.1, hnocap]

/-- Witness for C7: a single caption-less attachment figure with payload
`caption: "x"` gets a figcaption with text "x". -/
theorem normalizeDOM_caption_synthesis_witness :
    ∃ d', normalizeDOM (some ⟨some
        ⟨[⟨true, none, some (TrixPayload.parsed (some "x")), [], false, false⟩]⟩⟩) =
      Except.ok (some ⟨some d'⟩) ∧
    ∃ g, d'.figures.get? 0 = some g ∧ g.figcaption = some "x" := by
  obtain ⟨d', h1, h2, -⟩ := normalizeDOM_caption_synthesis
    ⟨[⟨true, none, some (TrixPayload.parsed (some "x")), [], false, false⟩]⟩ 0
    ⟨true, none, some (TrixPayload.parsed (some "x")), [], false, false⟩
    (by decide) rfl rfl rfl
  exact ⟨d', h1, h2 rfl⟩

/-- C9 (failing input): the guard of the name-glyph pass is inverted —
`if (el.textContent?.includes(" · ") === false) return;` skips exactly the
names that lack the glyph, and appends another glyph to names that already
contain it. A name "cat.png" without the glyph is left unchanged (so the
output does not even contain, let alone end with, the glyph), while
"cat.png · 2 KB" becomes "cat.png · 2 KB · ". -/
theorem attachment_name_glyph_inverted :
    nameGlyphStep "cat.png" = "cat.png" ∧
    jsIncludes "cat.png" glyph = false ∧
    jsIncludes (nameGlyphStep "cat.png") glyph = false ∧
    nameGlyphStep "cat.png · 2 KB" = "cat.png · 2 KB · " ∧
    normalizeDoc ⟨[⟨true, some "cap", some (TrixPayload.parsed (some "cap")),
        ["cat.png"], false, false⟩]⟩ =
      Except.ok ⟨[⟨true, some "cap", some (TrixPayload.parsed (some "cap")),
        ["cat.png"], false, false⟩]⟩ :=
  ⟨by decide, by decide, by decide, by decide, rfl⟩

/-- Helper: the name-glyph pass touches only the name texts, never the fields
the caption pass reads. -/
theorem nameStep_preserves (f : Figure) :
    (nameStep f).trixAttachment = f.trixAttachment ∧
    (nameStep f).figcaption = f.figcaption ∧
    (nameStep f).trixAttributes = f.trixAttributes :=
  ⟨rfl, rfl, rfl⟩

/-- Helper: a figure the caption pass accepts is never a caption-less
attachment figure with malformed payload afterwards (a malformed one either
threw or already had a figcaption). -/
theorem processFigure_output_safe (f f' : Figure)
    (h : processFigure f = Except.ok f') : ¬ malformedCaptionless f' := by
  unfold processFigure at h
  intro hmal
  obtain ⟨m1, m2, m3⟩ := hmal
  split at h
  · split at h
    · rename_i hattr
      obtain rfl : f = f' := Except.ok.inj h
      rw [hattr] at m3
      exact absurd m3 (by simp)
    · exact absurd h (by simp)
    · rename_i hattr
      obtain rfl : f = f' := Except.ok.inj h
      rw [hattr] at m3
      exact absurd m3 (by simp)
    · rename_i c hattr
      split at h
      · obtain rfl : { f with figcaption := some c } = f' := Except.ok.inj h
        exact absurd m2 (by simp)
      · obtain rfl : f = f' := Except.ok.inj h
        rw [hattr] at m3
        exact absurd m3 (by simp)
  · rename_i hc
    obtain rfl : f = f' := Except.ok.inj h
    apply hc
    rw [m1, m2]
    rfl

/-- Helper: every figure of a successful caption pass's output comes from
processing some input figure. -/
theorem mapFigs_mem (fs fs' : List Figure) (hm : mapFigs fs = Except.ok fs')
    (f' : Figure) (hf' : f' ∈ fs') :
    ∃ f ∈ fs, processFigure f = Except.ok f' := by
  induction fs generalizing fs' with
  | nil =>
    obtain rfl : ([] : List Figure) = fs' := Except.ok.inj hm
    simp at hf'
  | cons g rest ih =>
    rw [mapFigs] at hm
    cases hpg : processFigure g with
    | error e => rw [hpg] at hm; exact absurd hm (by simp)
    | ok g' =>
      rw [hpg] at hm
      cases hrest : mapFigs rest with
      | error e => rw [hrest] at hm; exact absurd hm (by simp)
      | ok rest' =>
        rw [hrest] at hm
        obtain rfl : g' :: rest' = fs' := Except.ok.inj hm
        rcases List.mem_cons.mp hf' with rfl | hmem
        · exact ⟨g, List.mem_cons_self g rest, hpg⟩
        · obtain ⟨f, hf, hpf⟩ := ih rest' hrest hmem
          exact ⟨f, List.mem_cons_of_mem g hf, hpf⟩

/-- Helper: a document `normalizeDoc` accepts normalizes to one that it
accepts again — no output figure is a caption-less attachment figure with
malformed payload. -/
theorem normalizeDoc_output_safe (d d' : NDoc)
    (h : normalizeDoc d = Except.ok d') :
    ∀ f ∈ d'.figures, ¬ malformedCaptionless f := by
  unfold normalizeDoc at h
  cases hm : mapFigs (d.figures.map galleryStep) with
  | error e => rw [hm] at h; exact absurd h (by simp)
  | ok l2 =>
    rw [hm] at h
    obtain rfl : (⟨l2.map nameStep⟩ : NDoc) = d' := Except.ok.inj h
    intro f hf
    simp only [List.mem_map] at hf
    obtain ⟨f2, hf2, rfl⟩ := hf
    obtain ⟨g, -, hpg⟩ := mapFigs_mem _ l2 hm f2 hf2
    have hsafe := processFigure_output_safe g f2 hpg
    intro hmal
    obtain ⟨p1, p2, p3⟩ := nameStep_preserves f2
    refine hsafe ⟨?_, ?_, ?_⟩
    · rw [← p1]; exact hmal.1
    · rw [← p2]; exact hmal.2.1
    · rw [← p3]; exact hmal.2.2

end NormalizeTheorems

section LifecycleTheorems

open Lifecycle Normalize

/-- Helper: on a host whose stored value normalizes cleanly, the
`normalizeDOM` pass of `__setupEditor` succeeds and touches only the bound
input; safety of both parse sites is preserved. -/
theorem setupNormalize_ok (h : Lifecycle.Host)
    (hns : Serialization.setupRunsNormalizeDOM h.serializer = true →
      normalizeSafeInput h.inputElement) :
    ∃ h1, setupNormalize h = Except.ok h1 ∧
      h1.editor = h.editor ∧ h1.slottedChild = h.slottedChild ∧
      h1.nextId = h.nextId ∧ h1.serializer = h.serializer ∧
      (Serialization.setupRunsNormalizeDOM h1.serializer = true →
        normalizeSafeInput h1.inputElement) ∧
      contentParseThrows h1 = contentParseThrows h := by
  unfold setupNormalize
  by_cases hrun : Serialization.setupRunsNormalizeDOM h.serializer = true
  · rw [if_pos hrun]
    cases hin : h.inputElement with
    | none =>
      refine ⟨h, rfl, rfl, rfl, rfl, rfl, ?_, rfl⟩
      intro hrun1
      rw [hin]
      exact trivial
    | some inp =>
      have hsafe : ∀ f ∈ inp.parsedHTML.figures,
          ¬ Normalize.malformedCaptionless f := by
        have hgiven := hns hrun
        rw [hin] at hgiven
        exact hgiven
      obtain ⟨l2, hl2⟩ := mapFigs_gallery_ok inp.parsedHTML hsafe
      have hnd : normalizeDoc inp.parsedHTML = Except.ok ⟨l2.map nameStep⟩ := by
        unfold normalizeDoc
        rw [hl2]
      simp only [hnd]
      refine ⟨_, rfl, rfl, rfl, rfl, rfl, ?_, ?_⟩
      · intro hrun1
        simp only [normalizeSafeInput]
        exact normalizeDoc_output_safe inp.parsedHTML _ hnd
      · simp only [contentParseThrows, hin]
  · rw [if_neg hrun]
    refine ⟨h, rfl, rfl, rfl, rfl, rfl, ?_, rfl⟩
    intro hrun1
    exact absurd hrun1 hrun

/-- Helper: on a parse-safe host, `rebuildEditor` does not throw, installs a
freshly allocated editor mounted on a freshly allocated slot container, and
the result is again allocator-sound and parse-safe. -/
theorem rebuildEditor_safe (h : Lifecycle.Host) (hs : SetupSafe h) :
    (rebuildEditor h).threw = false ∧
    (rebuildEditor h).host.editor = some ⟨h.nextId + 1, h.nextId⟩ ∧
    (rebuildEditor h).host.slottedChild = some ⟨h.nextId⟩ ∧
    (rebuildEditor h).host.nextId = h.nextId + 2 ∧
    FreshAlloc (rebuildEditor h).host ∧
    SetupSafe (rebuildEditor h).host := by
  obtain ⟨hns, hcp⟩ := hs
  obtain ⟨hN, hsn, he, hsc, hni, hser, hns', hcp'⟩ :=
    setupNormalize_ok
      { h with slottedChild := some ⟨h.nextId⟩, nextId := h.nextId + 1 } hns
  have hcpN : contentParseThrows hN = false := by
    rw [hcp']
    exact hcp
  have hni' : hN.nextId = h.nextId + 1 := hni
  have hsc' : hN.slottedChild = some ⟨h.nextId⟩ := hsc
  have hres : rebuildEditor h =
      ⟨{ hN with
          editor := some ⟨h.nextId + 1, h.nextId⟩
          nextId := hN.nextId + 1 }, false⟩ := by
    simp only [rebuildEditor, __setupEditor]
    rw [hsn]
    simp [hcpN, hni']
  have hfa : FreshAlloc { hN with
      editor := some ⟨h.nextId + 1, h.nextId⟩
      nextId := hN.nextId + 1 } := by
    constructor
    · intro e he2
      simp only [Option.mem_def, Option.some.injEq] at he2
      rw [← he2]
      constructor
      · show h.nextId + 1 < hN.nextId + 1
        rw [hni']
        omega
      · show h.nextId < hN.nextId + 1
        rw [hni']
        omega
    · intro n hn
      simp only [Option.mem_def] at hn
      have hn2 : hN.slottedChild = some n := hn
      rw [hsc'] at hn2
      obtain rfl : (⟨h.nextId⟩ : Lifecycle.Node) = n := by injection hn2
      show h.nextId < hN.nextId + 1
      rw [hni']
      omega
  rw [hres]
  refine ⟨rfl, rfl, ?_, ?_, hfa, ?_⟩
  · exact hsc'
  · show hN.nextId + 1 = h.nextId + 2
    rw [hni']
  · constructor
    · intro hrun
      exact hns' hrun
    · exact hcpN

/-- Helper: one configuration assignment on a parse-safe host completes
without throwing, installs the fresh instance and container, and preserves
allocator soundness and parse safety. -/
theorem applyOp_safe_step (h : Lifecycle.Host) (op : ConfigOp)
    (hs : SetupSafe h) :
    (applyOp h op).threw = false ∧
    (applyOp h op).host.editor = some ⟨h.nextId + 1, h.nextId⟩ ∧
    (applyOp h op).host.slottedChild = some ⟨h.nextId⟩ ∧
    (applyOp h op).host.nextId = h.nextId + 2 ∧
    FreshAlloc (applyOp h op).host ∧
    SetupSafe (applyOp h op).host := by
  cases op with
  | assignExtensions e =>
    exact rebuildEditor_safe { h with extensions := e } hs
  | assignStarterKitOpts o =>
    exact rebuildEditor_safe { h with starterKitOpts := o } hs

/-- Helper: allocator soundness and parse safety hold after any sequence of
configuration assignments on a parse-safe host. -/
theorem applyOps_invariant (h : Lifecycle.Host) (ops : List ConfigOp)
    (hf : FreshAlloc h) (hs : SetupSafe h) :
    FreshAlloc (applyOps h ops) ∧ SetupSafe (applyOps h ops) := by
  induction ops generalizing h with
  | nil => exact ⟨hf, hs⟩
  | cons op rest ih =>
    have step := applyOp_safe_step h op hs
    exact ih (applyOp h op).host step.2.2.2.2.1 step.2.2.2.2.2

/-- C1 (counterexample to the claim as stated): on a host whose stored value
holds a caption-less attachment figure with a malformed payload (the
exception path certified under C8), an `extensions` assignment replaces the
slot content with the fresh node `⟨2⟩` and then throws inside
`__setupEditor`, before `this.editor` is reassigned — afterwards the
*previous* instance `⟨0, 1⟩` is still the host's editor reference (reachable,
not torn down) and no fresh instance mounted on the new container exists,
contradicting the claimed invariant for this assignment. -/
theorem config_assignment_throwing_keeps_previous_editor :
    (applyOp staleHost (ConfigOp.assignExtensions [3])).threw = true ∧
    (applyOp staleHost (ConfigOp.assignExtensions [3])).host.editor
      = some ⟨0, 1⟩ ∧
    (applyOp staleHost (ConfigOp.assignExtensions [3])).host.slottedChild
      = some ⟨2⟩ ∧
    staleHost.editor = some ⟨0, 1⟩ ∧ staleHost.slottedChild = some ⟨1⟩ := by
  decide

/-- C1 (amended): for every sequence of assignments to the `extensions` or
`starterKitOptions` setters on a parse-safe host (no caption-less attachment
figure with malformed payload in the stored value when the serializer routes
it through `normalizeDOM`, and content the `__defaultOptions` parse accepts),
no assignment throws, and after each assignment exactly one wrapped-editor
instance is alive on the host, its rendered container is a freshly created
node distinct from the previous one, and the previous instance is no longer
referenced by the host. When construction does throw, the assignment instead
propagates the exception with the previous editor reference left in place
(see the counterexample). -/
theorem config_assignments_single_fresh_editor
    (h : Lifecycle.Host) (ops : List ConfigOp) (k : Nat)
    (hf : FreshAlloc h) (hs : SetupSafe h) (hk : k < ops.length) :
    (applyOp (applyOps h (ops.take k)) ops[k]).threw = false ∧
    (aliveEditors (applyOps h (ops.take (k + 1)))).length = 1 ∧
    (∀ n' ∈ (applyOps h (ops.take (k + 1))).slottedChild,
      ∀ n ∈ (applyOps h (ops.take k)).slottedChild, n' ≠ n) ∧
    (∀ e ∈ (applyOps h (ops.take k)).editor,
      e ∉ aliveEditors (applyOps h (ops.take (k + 1)))) := by
  have hget : ops.take (k + 1) = ops.take k ++ [ops[k]] := by
    rw [List.take_succ, List.getElem?_eq_getElem hk]
    rfl
  have hstep : applyOps h (ops.take (k + 1)) =
      (applyOp (applyOps h (ops.take k)) ops[k]).host := by
    unfold applyOps
    rw [hget, List.foldl_append]
    rfl
  obtain ⟨hfk, hsk⟩ := applyOps_invariant h (ops.take k) hf hs
  obtain ⟨t0, t1, t2, t3, t4, t5⟩ :=
    applyOp_safe_step (applyOps h (ops.take k)) ops[k] hsk
  refine ⟨t0, ?_, ?_, ?_⟩
  · rw [hstep]
    simp [aliveEditors, t1]
  · intro n' hn' n hn
    rw [hstep] at hn'
    simp only [Option.mem_def] at hn' hn
    rw [t2] at hn'
    obtain rfl : (⟨(applyOps h (ops.take k)).nextId⟩ : Lifecycle.Node) = n' := by
      injection hn'
    have hbound := hfk.2 n hn
    intro hcontra
    rw [← hcontra] at hbound
    simp only at hbound
    omega
  · intro e he hmem
    rw [hstep] at hmem
    simp only [aliveEditors, t1, Option.toList_some, List.mem_singleton] at hmem
    have hbound : e.id < (applyOps h (ops.take k)).nextId := (hfk.1 e he).1
    have hbad : (applyOps h (ops.take k)).nextId + 1 <
        (applyOps h (ops.take k)).nextId := by
      rw [hmem] at hbound
      exact hbound
    omega

/-- Witness for C1 (amended): a freshly connected parse-safe host (no editor
yet, no bound input, html serializer) receiving an `extensions` assignment
followed by a `starterKitOptions` assignment; after the second assignment
exactly one editor is alive. -/
theorem config_assignments_single_fresh_editor_witness :
    FreshAlloc (⟨none, none, [], 0, "html", none, 0⟩ : Lifecycle.Host) ∧
    SetupSafe (⟨none, none, [], 0, "html", none, 0⟩ : Lifecycle.Host) ∧
    (aliveEditors (applyOps ⟨none, none, [], 0, "html", none, 0⟩
      ([ConfigOp.assignExtensions [5],
        ConfigOp.assignStarterKitOpts 7].take (1 + 1)))).length = 1 := by
  refine ⟨by decide, by decide, ?_⟩
  exact (config_assignments_single_fresh_editor
    ⟨none, none, [], 0, "html", none, 0⟩
    [ConfigOp.assignExtensions [5], ConfigOp.assignStarterKitOpts 7] 1
    (by decide) (by decide) (by decide)).2.1

end LifecycleTheorems

section IntakeTheorems

open Intake

/-- Helper: the full trace of one `handleFiles` call on a live editor: one
file-accept dispatch per file in order, then (when any file survived
cancellation) the single combined insertion command followed by one
add-attachment dispatch per inserted attachment; the promise settles exactly
when some file survived. -/
theorem handleFiles_eq (h : Intake.Host) (cancel : Intake.File → Bool)
    (files : List Intake.File) (he : h.editor.isSome) :
    handleFiles h cancel files =
      ⟨files.map Action.fileAccept ++
        (if (acceptedFiles cancel files).isEmpty then [] else
          Action.insertAttachments ((acceptedFiles cancel files).map mkAttachment) ::
            ((acceptedFiles cancel files).map mkAttachment).map Action.addAttachment),
       !(acceptedFiles cancel files).isEmpty⟩ := by
  obtain ⟨u, hu⟩ := Option.isSome_iff_exists.mp he
  have hallowed :
      (((files.map fun f => (f, cancel f)).filter fun ev => !ev.2).map (·.1)) =
        acceptedFiles cancel files := by
    rw [List.filter_map, List.map_map]
    simp only [Function.comp_def]
    simp [acceptedFiles]
  by_cases hemp : acceptedFiles cancel files = []
  · simp only [handleFiles, hu, hallowed, transformFilesToAttachments, hemp]
    simp [mkAttachment]
  · have hlen : (acceptedFiles cancel files).length ≠ 0 :=
      fun hcon => hemp (List.length_eq_zero.mp hcon)
    simp only [handleFiles, hu, hallowed, transformFilesToAttachments]
    rw [if_neg hlen]
    have hposn : ¬((acceptedFiles cancel files).map mkAttachment).length ≤ 0 := by
      simp only [List.length_map]
      omega
    simp only [hposn, if_neg hposn, List.isEmpty_iff, hemp, if_false]
    simp [mkAttachment, hemp]

/-- Helper: no attachment is collected from the file-accept dispatches. -/
theorem collectInserted_fileAccepts (files : List Intake.File) :
    collectInserted (files.map Action.fileAccept) = [] := by
  induction files with
  | nil => rfl
  | cons f rest ih => simpa [collectInserted] using ih

/-- Helper: no attachment is collected from add-attachment dispatches. -/
theorem collectInserted_addAttachments (atts : List AttachmentManager) :
    collectInserted (atts.map Action.addAttachment) = [] := by
  induction atts with
  | nil => rfl
  | cons a rest ih => simpa [collectInserted] using ih

/-- Helper: collected insertions distribute over trace concatenation. -/
theorem collectInserted_append (l1 l2 : List Action) :
    collectInserted (l1 ++ l2) = collectInserted l1 ++ collectInserted l2 := by
  induction l1 with
  | nil => rfl
  | cons a rest ih =>
    cases a <;> simp [collectInserted] <;>
      simpa [collectInserted] using ih

/-- Helper: an insertion command at the head of a trace contributes its
attachments. -/
theorem collectInserted_cons_insert (atts : List AttachmentManager)
    (l : List Action) :
    collectInserted (Action.insertAttachments atts :: l) =
      atts ++ collectInserted l :=
  rfl

/-- Helper: a file on the accepted list had its notification not canceled. -/
theorem mem_accepted_not_canceled (cancel : Intake.File → Bool)
    (files : List Intake.File) (f : Intake.File)
    (hf : f ∈ acceptedFiles cancel files) : cancel f = false := by
  simp only [acceptedFiles, List.mem_filter, Bool.not_eq_true'] at hf
  exact hf.2

/-- Helper: on a live editor, the attachments handed to insertion commands
are exactly one per accepted file. -/
theorem insertedAttachments_handleFiles (h : Intake.Host)
    (cancel : Intake.File → Bool) (files : List Intake.File)
    (he : h.editor.isSome) :
    insertedAttachments (handleFiles h cancel files) =
      (acceptedFiles cancel files).map mkAttachment := by
  rw [handleFiles_eq h cancel files he]
  by_cases hemp : (acceptedFiles cancel files).isEmpty
  · rw [List.isEmpty_iff] at hemp
    simp [insertedAttachments, hemp, collectInserted_append,
      collectInserted_fileAccepts]
  · simp only [insertedAttachments, hemp, if_false, Bool.false_eq_true]
    rw [collectInserted_append, collectInserted_fileAccepts,
      collectInserted_cons_insert, collectInserted_addAttachments]
    simp

/-- C3 (failing input): on a live editor with an empty file collection,
`handleFiles` dispatches nothing and inserts nothing, but the executor of its
returned promise exits before `resolve()` ever runs, so the promise never
settles — the claim says it resolves immediately. Without a live editor the
`async` early exit does produce a resolved promise. -/
theorem handleFiles_empty_collection_never_settles :
    (handleFiles ⟨some ()⟩ (fun _ => false) []).events = [] ∧
    (handleFiles ⟨some ()⟩ (fun _ => false) []).resolved = false ∧
    (handleFiles ⟨none⟩ (fun _ => false) []).resolved = true := by
  decide

/-- C4: on a live editor, `handleFiles` dispatches exactly one cancelable
file-accept notification per input file (in order); canceled files are
excluded from the insertion and from add-attachment notifications; the
non-canceled files are inserted as exactly one attachment each through a
single combined editor command, and each inserted attachment gets exactly one
add-attachment notification, dispatched after the insertion command. -/
theorem handleFiles_accept_pipeline (h : Intake.Host)
    (cancel : Intake.File → Bool) (files : List Intake.File)
    (he : h.editor.isSome) :
    (handleFiles h cancel files).events =
      files.map Action.fileAccept ++
        (if (acceptedFiles cancel files).isEmpty then [] else
          Action.insertAttachments ((acceptedFiles cancel files).map mkAttachment) ::
            ((acceptedFiles cancel files).map mkAttachment).map Action.addAttachment) ∧
    insertedAttachments (handleFiles h cancel files) =
      (acceptedFiles cancel files).map mkAttachment ∧
    ((handleFiles h cancel files).events.filter Action.isInsertCmd).length ≤ 1 ∧
    (∀ f, cancel f = true →
      ∀ a, Action.addAttachment a ∈ (handleFiles h cancel files).events →
        a.file ≠ f) ∧
    (∀ f, cancel f = true →
      ∀ a ∈ insertedAttachments (handleFiles h cancel files), a.file ≠ f) := by
  refine ⟨?_, insertedAttachments_handleFiles h cancel files he, ?_, ?_, ?_⟩
  · rw [handleFiles_eq h cancel files he]
  · rw [handleFiles_eq h cancel files he]
    by_cases hemp : (acceptedFiles cancel files).isEmpty <;>
      simp [hemp, List.filter_append, List.filter_map, Function.comp_def,
        Action.isInsertCmd]
  · intro f hf a ha
    rw [handleFiles_eq h cancel files he] at ha
    simp only [List.mem_append, List.mem_map] at ha
    rcases ha with ⟨f', -, hcon⟩ | ha
    · exact absurd hcon (by simp)
    · by_cases hemp : (acceptedFiles cancel files).isEmpty
      · simp [hemp] at ha
      · simp only [hemp, if_false, Bool.false_eq_true, List.mem_cons,
          List.mem_map] at ha
        rcases ha with hcon | ⟨a', ⟨g, hg, rfl⟩, heq⟩
        · exact absurd hcon (by simp)
        · obtain rfl : mkAttachment g = a := by injection heq
          have hnc := mem_accepted_not_canceled cancel files g hg
          show g ≠ f
          rintro rfl
          rw [hf] at hnc
          exact absurd hnc (by decide)
  · intro f hf a ha
    rw [insertedAttachments_handleFiles h cancel files he] at ha
    simp only [List.mem_map] at ha
    obtain ⟨f', hf', rfl⟩ := ha
    have hnc := mem_accepted_not_canceled cancel files f' hf'
    show f' ≠ f
    rintro rfl
    rw [hf] at hnc
    exact absurd hnc (by decide)

/-- Witness for C4: two files dropped on a live editor, the first one's
file-accept notification canceled by a listener: one file-accept dispatch per
file, then a single combined insertion of the second file's attachment and
its add-attachment notification. -/
theorem handleFiles_accept_pipeline_witness :
    (handleFiles ⟨some ()⟩ (fun f => f.id == 10) [⟨10⟩, ⟨20⟩]).events =
      [Action.fileAccept ⟨10⟩, Action.fileAccept ⟨20⟩,
       Action.insertAttachments [⟨20, ⟨20⟩⟩],
       Action.addAttachment ⟨20, ⟨20⟩⟩] := by
  rw [(handleFiles_accept_pipeline ⟨some ()⟩ (fun f => f.id == 10)
    [⟨10⟩, ⟨20⟩] (by decide)).1]
  decide

/-- C5 (counterexample to the claim as stated): a drop event carrying one
file on a host with no live editor is ignored without `preventDefault()` —
the claim asserts default handling is prevented whenever the event carries at
least one file. -/
theorem handleDropFile_file_without_editor_not_prevented :
    (handleDropFile ⟨none⟩ (fun _ => false) (some ⟨some ⟨[⟨1⟩]⟩⟩)).prevented
      = false ∧
    (handleDropFile ⟨none⟩ (fun _ => false) (some ⟨some ⟨[⟨1⟩]⟩⟩)).forwarded
      = none := by
  decide

/-- C5 (amended): a drop event carrying zero files (or no `dataTransfer`, or
a null event) never has default handling prevented and the intake is a no-op;
a drop event carrying one or more files, *on a host with a live editor*, has
default handling prevented, its file collection forwarded to `handleFiles`,
and exactly one attachment created and inserted per accepted file. -/
theorem handleDropFile_spec (h : Intake.Host) (cancel : Intake.File → Bool)
    (ev : DragEvent) (dt : DataTransfer) :
    (handleDropFile h cancel none = ⟨false, none⟩) ∧
    (ev.dataTransfer = none → handleDropFile h cancel (some ev) = ⟨false, none⟩) ∧
    (dt.files = [] → handleDropFile h cancel (some ⟨some dt⟩) = ⟨false, none⟩) ∧
    (h.editor.isSome = true → dt.files ≠ [] →
      handleDropFile h cancel (some ⟨some dt⟩) =
        ⟨true, some (handleFiles h cancel dt.files)⟩ ∧
      insertedAttachments (handleFiles h cancel dt.files) =
        (acceptedFiles cancel dt.files).map mkAttachment) := by
  refine ⟨?_, ?_, ?_, ?_⟩
  · cases hed : h.editor <;> simp [handleDropFile, hed]
  · intro hdt
    cases hed : h.editor <;> simp [handleDropFile, hed, hdt]
  · intro hfs
    cases hed : h.editor <;> simp [handleDropFile, hed, hfs]
  · intro he hfs
    obtain ⟨u, hu⟩ := Option.isSome_iff_exists.mp he
    have hlen : 0 < dt.files.length := by
      cases hcase : dt.files with
      | nil => exact absurd hcase hfs
      | cons x xs => simp [hcase]
    refine ⟨?_, insertedAttachments_handleFiles h cancel dt.files he⟩
    simp [handleDropFile, hu, hlen]

/-- Witness for C5 (amended): one file dropped on a live editor with no
listener canceling: default prevented and the collection forwarded. -/
theorem handleDropFile_spec_witness :
    handleDropFile ⟨some ()⟩ (fun _ => false) (some ⟨some ⟨[⟨3⟩]⟩⟩) =
      ⟨true, some (handleFiles ⟨some ()⟩ (fun _ => false) [⟨3⟩])⟩ ∧
    handleDropFile ⟨some ()⟩ (fun _ => false) (some ⟨some ⟨[]⟩⟩) =
      ⟨false, none⟩ := by
  constructor
  · exact ((handleDropFile_spec ⟨some ()⟩ (fun _ => false) ⟨none⟩ ⟨[⟨3⟩]⟩).2.2.2
      (by decide) (by decide)).1
  · exact (handleDropFile_spec ⟨some ()⟩ (fun _ => false) ⟨none⟩ ⟨[]⟩).2.2.1 rfl

end IntakeTheorems

section SerializerModeTheorems

open Serialization

/-- C10: the serializer-mode comparison is inconsistent in case sensitivity:
`serialize()` and the initial-content parse compare case-insensitively (so
serializer "HTML" serializes as HTML, and "JSON" parses content as JSON),
while `__setupEditor` runs `normalizeDOM` only for the exact strings "" and
"html" — so a host with serializer "HTML" serializes as HTML yet skips
normalization of the bound input's stored value. -/
theorem serializer_case_inconsistency :
    serialize ⟨some ⟨"{}", "<p>hi</p>"⟩, "HTML", false, none⟩ = "<p>hi</p>" ∧
    serialize ⟨some ⟨"{}", "<p>hi</p>"⟩, "html", false, none⟩ = "<p>hi</p>" ∧
    contentParsedAsJson "{}" "JSON" = true ∧
    setupRunsNormalizeDOM "HTML" = false ∧
    setupRunsNormalizeDOM "html" = true ∧
    setupRunsNormalizeDOM "" = true := by
  refine ⟨?_, ?_, by decide, by decide, by decide, by decide⟩ <;> decide

end SerializerModeTheorems

end RhinoEditor
